import Mathlib

/-!
Verification development for `analyze_players.py`, a single-function pandas /
scikit-learn pipeline (`analyze_lol_data`) that rates LoL players: it loads a
CSV, coerces the six configured statistic columns to numeric, filters players
by a minimum games threshold, imputes missing statistic values with the column
mean, standardizes each statistic (z-score), forms a weighted composite score,
rescales it to a 0..100 rating with min-max scaling, and prints the top 20
players sorted by rating descending.

The embedding below models the in-memory tabular computation exactly, with
rational numbers standing for the floating-point values (exact arithmetic) and
`Option ℚ` standing for a cell that may be NaN (`none` = NaN / missing).
File I/O (reading the CSV) is out of scope: a run starts from a `Dataset`,
which records which statistic columns are present in the file and the parsed
rows.  An uncaught Python exception is modelled as an `Except.error`.

Floating-point standard deviations are square roots, which ℚ lacks; the
standardizer therefore takes the standard deviation σ of each column as an
oracle parameter, and theorems that depend on σ being the true standard
deviation assume `0 ≤ σ` and `σ ^ 2 = popVar`.
-/

namespace AnalyzePlayers

/-- The six statistics configured in `stat_weights` (lines 15-22 of
`analyze_players.py`). -/
inductive Stat where
  | winRate
  | kda
  | gpm
  | dmgPct
  | gdAt15
  | vspm
deriving DecidableEq, Repr

/-- `key_stats = list(stat_weights.keys())` (line 23): the configured column
list, in dict insertion order.  It is computed once, before any absent column
is popped from `stat_weights`, and never updated afterwards. -/
def keyStats : List Stat :=
  [.winRate, .kda, .gpm, .dmgPct, .gdAt15, .vspm]

/-- The configured weights (lines 15-22). -/
def statWeight : Stat → ℚ
  | .winRate => 25 / 100
  | .kda => 25 / 100
  | .gpm => 15 / 100
  | .dmgPct => 15 / 100
  | .gdAt15 => 10 / 100
  | .vspm => 10 / 100

/-- `min_games = 15` (line 11). -/
def minGames : ℚ := 15

/-- One row of the table after `pd.read_csv(..., index_col=0, na_values='-')`
and `pd.to_numeric(..., errors='coerce')` on the statistic columns: the player
name (the index), the `Games` cell and one cell per configured statistic.
`none` models a NaN cell (missing, the `-` sentinel, or a failed numeric
coercion). -/
structure Record where
  player : String
  games : Option ℚ
  winRate : Option ℚ
  kda : Option ℚ
  gpm : Option ℚ
  dmgPct : Option ℚ
  gdAt15 : Option ℚ
  vspm : Option ℚ
deriving DecidableEq, Repr

/-- The cell of record `r` in statistic column `s`. -/
def Record.stat (r : Record) : Stat → Option ℚ
  | .winRate => r.winRate
  | .kda => r.kda
  | .gpm => r.gpm
  | .dmgPct => r.dmgPct
  | .gdAt15 => r.gdAt15
  | .vspm => r.vspm

/-- Record `r` with statistic column `s` set to `v` (a single-cell column
assignment). -/
def Record.setStat (r : Record) : Stat → Option ℚ → Record
  | .winRate, v => { r with winRate := v }
  | .kda, v => { r with kda := v }
  | .gpm, v => { r with gpm := v }
  | .dmgPct, v => { r with dmgPct := v }
  | .gdAt15, v => { r with gdAt15 := v }
  | .vspm, v => { r with vspm := v }

/-- The loaded table: which configured statistic columns exist in the CSV
(`col in df.columns`), and the parsed rows in file order. -/
structure Dataset where
  hasCol : Stat → Bool
  rows : List Record

/-- The statistics whose columns were absent from the CSV, for which the loop
at lines 51-56 prints `Warning: Column '...' not found in the CSV. It will be
ignored.` and pops the weight from `stat_weights`. -/
def schemaWarnings (ds : Dataset) : List Stat :=
  keyStats.filter fun s => !ds.hasCol s

/-- The statistics remaining in `stat_weights` after the pops at line 56:
exactly the configured statistics whose columns exist. -/
def activeStats (ds : Dataset) : List Stat :=
  keyStats.filter fun s => ds.hasCol s

/-- The defined (non-NaN) values of a column. -/
def someVals (c : List (Option ℚ)) : List ℚ :=
  c.filterMap id

/-- Arithmetic mean with denominator `N` (an empty list gives `0 / 0 = 0`;
callers guard emptiness). -/
def popMean (xs : List ℚ) : ℚ :=
  xs.sum / xs.length

/-- Population variance: mean squared deviation, denominator `N` (`ddof = 0`,
the numpy / scikit-learn default). -/
def popVar (xs : List ℚ) : ℚ :=
  ((xs.map fun x => (x - popMean xs) ^ 2).sum) / xs.length

/-- `df[col].mean()` (pandas `Series.mean`, `skipna=True`): the mean over the
defined cells, NaN when every cell is NaN. -/
def colMean (c : List (Option ℚ)) : Option ℚ :=
  if someVals c = [] then none else some (popMean (someVals c))

/-- `df[col].fillna(df[col].mean())` (line 69): every NaN cell becomes the
column mean.  When the mean itself is NaN (all cells NaN), filling NaN with
NaN leaves the column unchanged. -/
def fillna (c : List (Option ℚ)) : List (Option ℚ) :=
  match colMean c with
  | none => c
  | some m => c.map fun v => some (v.getD m)

/-- `sklearn.preprocessing._data._handle_zeros_in_scale`: a scale of zero
(a constant column) is replaced by 1 to avoid division by zero. -/
def scaleOf (v σ : ℚ) : ℚ :=
  if v = 0 then 1 else σ

/-- One cell of `StandardScaler().fit_transform` (lines 73-75) on column `c`,
with σ the (oracle) square root of the population variance of the defined
cells: NaN cells are disregarded in fit and kept in transform; a column with
no defined cell has NaN mean and variance, so every output cell is NaN. -/
def zOf (c : List (Option ℚ)) (σ : ℚ) (v : Option ℚ) : Option ℚ :=
  let xs := someVals c
  if xs.isEmpty then none
  else v.map fun x => (x - popMean xs) / scaleOf (popVar xs) σ

/-- `StandardScaler().fit_transform` on one column. -/
def standardizeCol (c : List (Option ℚ)) (σ : ℚ) : List (Option ℚ) :=
  c.map (zOf c σ)

/-- Leftmost-seeded minimum of a list (`np.nanmin` over the defined cells). -/
def listMin : List ℚ → ℚ
  | [] => 0
  | x :: xs => xs.foldl min x

/-- Leftmost-seeded maximum of a list (`np.nanmax` over the defined cells). -/
def listMax : List ℚ → ℚ
  | [] => 0
  | x :: xs => xs.foldl max x

/-- `MinMaxScaler(feature_range=(0, 100)).fit_transform` on the composite
score column (lines 85-86): `(x - min) * 100 / (max - min)`, with a zero range
replaced by 1 (`_handle_zeros_in_scale`).  NaN cells are disregarded in fit
and kept in transform; an all-NaN column yields all-NaN ratings. -/
def minMaxRescale (scores : List (Option ℚ)) : List (Option ℚ) :=
  let xs := someVals scores
  if xs.isEmpty then scores.map fun _ => none
  else
    let lo := listMin xs
    let d := listMax xs - lo
    scores.map (Option.map fun x => (x - lo) * 100 / scaleOf d d)

/-- `df[df['Games'] >= min_games]` (line 62): the pandas comparison is False
on a NaN `Games` cell, so such rows are dropped. -/
def filterRows (rows : List Record) : List Record :=
  rows.filter fun r =>
    match r.games with
    | some g => decide (minGames ≤ g)
    | none => false

/-- The column of statistic `s` over a row list. -/
def colOf (rows : List Record) (s : Stat) : List (Option ℚ) :=
  rows.map (·.stat s)

/-- `df[col] = df[col].fillna(df[col].mean())` for one column `s`. -/
def fillCol (s : Stat) (rows : List Record) : List Record :=
  match colMean (colOf rows s) with
  | none => rows
  | some m => rows.map fun r => r.setStat s (some ((r.stat s).getD m))

/-- The imputation loop at lines 67-69: for each configured column, in
`key_stats` order, if the column exists fill its NaN cells with its mean. -/
def imputeRows (hasCol : Stat → Bool) (rows : List Record) : List Record :=
  keyStats.foldl (fun rs s => if hasCol s then fillCol s rs else rs) rows

/-- Uncaught Python exceptions that can escape `analyze_lol_data` after the
file was read. -/
inductive PipeError where
  /-- `KeyError` raised by `df[key_stats]` at line 74 when a configured column
  is absent: `key_stats` still lists the popped column. -/
  | keyError
  /-- `ValueError` raised by `StandardScaler().fit_transform` at line 75 when
  the filtered frame has zero rows (a minimum of 1 sample is required). -/
  | emptySamples
deriving DecidableEq, Repr

/-- `CompositeScore` of row `r` (lines 79-81): starting from 0, add
`weight * z` for each statistic still in `stat_weights` (dict order); an NaN
standardized cell makes the sum NaN. -/
def compositeScore (ds : Dataset) (imputed : List Record) (σ : Stat → ℚ)
    (r : Record) : Option ℚ :=
  (activeStats ds).foldl
    (fun acc s =>
      acc.bind fun a =>
        (zOf (colOf imputed s) (σ s) (r.stat s)).map fun z =>
          a + z * statWeight s)
    (some 0)

/-- Comparison key of `sort_values(by='PlayerRating')` restricted to non-NaN
rows (pandas sorts the NaN rows separately). -/
def ratingLE (p q : Record × Option ℚ) : Bool :=
  decide (p.2.getD 0 ≤ q.2.getD 0)

/-- Insert `x` into `l`, before the first element `y` with `le x y`:  the
insertion step of a stable ascending sort. -/
def insort (le : α → α → Bool) (x : α) : List α → List α
  | [] => [x]
  | y :: ys => if le x y then x :: y :: ys else y :: insort le x ys

/-- Ascending insertion sort.  numpy argsort with the default kind runs
exactly this stable algorithm on arrays of at most 16 elements; on larger
arrays it switches to an introsort whose tie order is unspecified, so the
theorems below use only tie-order-independent consequences of this model
(membership, permutation) or evaluate concrete runs of at most 16 rows. -/
def sortAsc (le : α → α → Bool) : List α → List α
  | [] => []
  | x :: xs => insort le x (sortAsc le xs)

/-- `df.sort_values(by='PlayerRating', ascending=False)` (line 90), following
pandas `nargsort` with `na_position='last'`: split off the NaN rows; reverse
the non-NaN rows, argsort them ascending, reverse the resulting order, and
append the NaN rows in their original order.  The double reversal preserves
whatever tie order the argsort kind provides; the default numpy kind
guarantees none beyond 16 elements, and no theorem below depends on the
model's tie order. -/
def sortDesc (l : List (Record × Option ℚ)) : List (Record × Option ℚ) :=
  let defined := l.filter fun p => p.2.isSome
  let nans := l.filter fun p => p.2.isNone
  (sortAsc ratingLE defined.reverse).reverse ++ nans

/-- The pipeline of `analyze_lol_data` from the loaded table to the printed
report rows (each row of `df_sorted.head(20)` paired with its
`PlayerRating`), or the uncaught exception that ends the run.  Stage order
follows the source: filter (line 62), impute (lines 67-69), `df[key_stats]`
(line 74, `KeyError` when a configured column is absent), `fit_transform`
(line 75, `ValueError` on zero rows), composite score (lines 79-81), min-max
rescale (lines 85-86), sort and truncate (lines 90-96).  The displayed rows
come from `df`, which the imputation loop mutated in place. -/
def analyze (ds : Dataset) (σ : Stat → ℚ) :
    Except PipeError (List (Record × Option ℚ)) :=
  let filtered := filterRows ds.rows
  let imputed := imputeRows ds.hasCol filtered
  if !(keyStats.all ds.hasCol) then .error .keyError
  else if imputed.isEmpty then .error .emptySamples
  else
    let scores := imputed.map (compositeScore ds imputed σ)
    let ratings := minMaxRescale scores
    .ok ((sortDesc (imputed.zip ratings)).take 20)

/-- The rated rows right before the sort: each imputed row paired with its
`PlayerRating`. -/
def ratedRows (ds : Dataset) (σ : Stat → ℚ) : List (Record × Option ℚ) :=
  let imputed := imputeRows ds.hasCol (filterRows ds.rows)
  imputed.zip (minMaxRescale (imputed.map (compositeScore ds imputed σ)))

/-- The `CompositeScore` column of a run: one score per imputed row, in row
order (position `i` of this column is the score of row `i` of the imputed
frame, and of the pair at position `i` of `ratedRows`). -/
def scoresOf (ds : Dataset) (σ : Stat → ℚ) : List (Option ℚ) :=
  (imputeRows ds.hasCol (filterRows ds.rows)).map
    (compositeScore ds (imputeRows ds.hasCol (filterRows ds.rows)) σ)

/-! ### Concrete fixtures used by the witnesses and counterexamples -/

/-- Trivial σ oracle (its value is irrelevant on constant or all-NaN
columns, where the scale is 1 or NaN). -/
def sigma0 : Stat → ℚ := fun _ => 0

/-- Player row with 20 games and every statistic defined. -/
def rowA : Record := ⟨"A", some 20, some 50, some 3, some 400, some 25, some 100, some 1⟩

/-- Second player row, identical statistics to `rowA`. -/
def rowB : Record := ⟨"B", some 20, some 50, some 3, some 400, some 25, some 100, some 1⟩

/-- Dataset with all six columns present and two fully defined rows. -/
def dsOK : Dataset := ⟨fun _ => true, [rowA, rowB]⟩

/-- Dataset whose CSV lacks the `VSPM` column (all other columns present). -/
def dsNoVspm : Dataset :=
  ⟨fun s => match s with | .vspm => false | _ => true, [rowA, rowB]⟩

/-- Row with only 5 games, below the threshold of 15. -/
def rowFew : Record := ⟨"C", some 5, some 50, some 3, some 400, some 25, some 100, some 1⟩

/-- Dataset in which every row is below the games threshold. -/
def dsAllFiltered : Dataset := ⟨fun _ => true, [rowFew]⟩

/-- Row whose `VSPM` cell is missing. -/
def rowA6 : Record := ⟨"A", some 20, some 50, some 3, some 400, some 25, some 100, none⟩

/-- Second row whose `VSPM` cell is missing. -/
def rowB6 : Record := ⟨"B", some 20, some 50, some 3, some 400, some 25, some 100, none⟩

/-- Dataset whose `VSPM` column is present but missing in every row. -/
def dsAllMissingVspm : Dataset := ⟨fun _ => true, [rowA6, rowB6]⟩

/-- Row whose `Win Rate` cell is missing. -/
def rowA9 : Record := ⟨"A", some 20, none, some 3, some 400, some 25, some 100, some 1⟩

/-- Row with `Win Rate` 40, the only defined `Win Rate` in `dsMissingWr`. -/
def rowB9 : Record := ⟨"B", some 20, some 40, some 3, some 400, some 25, some 100, some 1⟩

/-- Dataset in which row A is missing its `Win Rate` cell. -/
def dsMissingWr : Dataset := ⟨fun _ => true, [rowA9, rowB9]⟩

/-- Row A of `dsMissingWr` as displayed: the missing `Win Rate` was imputed
with the column mean 40. -/
def rowA9imp : Record := ⟨"A", some 20, some 40, some 3, some 400, some 25, some 100, some 1⟩

/-- Row with `Win Rate` 40; every other statistic matches `rowD`. -/
def rowC : Record := ⟨"C", some 20, some 40, some 3, some 400, some 25, some 100, some 1⟩

/-- Row with `Win Rate` 60; every other statistic matches `rowC`. -/
def rowD : Record := ⟨"D", some 20, some 60, some 3, some 400, some 25, some 100, some 1⟩

/-- Dataset whose two rows get distinct composite scores (they differ only
in `Win Rate`: 40 versus 60). -/
def dsDistinct : Dataset := ⟨fun _ => true, [rowC, rowD]⟩

/-- σ oracle for `dsDistinct`: the `Win Rate` column [40, 60] has population
variance 100, standard deviation 10; every other column is constant, so its
scale is 1 regardless of the oracle. -/
def sigmaD : Stat → ℚ := fun s => match s with | .winRate => 10 | _ => 0

/-! ## Basic lemmas about columns and list extrema -/

theorem someVals_map_some (l : List ℚ) : someVals (l.map some) = l := by
  simp [someVals, List.filterMap_map]

theorem foldl_min_le_init (l : List ℚ) : ∀ a : ℚ, l.foldl min a ≤ a := by
  induction l with
  | nil => intro a; simp
  | cons y ys ih =>
    intro a
    exact le_trans (ih (min a y)) (min_le_left a y)

theorem foldl_min_le_mem (l : List ℚ) :
    ∀ a x : ℚ, x ∈ l → l.foldl min a ≤ x := by
  induction l with
  | nil => intro a x hx; cases hx
  | cons y ys ih =>
    intro a x hx
    rcases List.mem_cons.1 hx with rfl | hx
    · exact le_trans (foldl_min_le_init ys (min a x)) (min_le_right a x)
    · exact ih (min a y) x hx

theorem init_le_foldl_max (l : List ℚ) : ∀ a : ℚ, a ≤ l.foldl max a := by
  induction l with
  | nil => intro a; simp
  | cons y ys ih =>
    intro a
    exact le_trans (le_max_left a y) (ih (max a y))

theorem mem_le_foldl_max (l : List ℚ) :
    ∀ a x : ℚ, x ∈ l → x ≤ l.foldl max a := by
  induction l with
  | nil => intro a x hx; cases hx
  | cons y ys ih =>
    intro a x hx
    rcases List.mem_cons.1 hx with rfl | hx
    · exact le_trans (le_max_right a x) (init_le_foldl_max ys (max a x))
    · exact ih (max a y) x hx

theorem listMin_le {l : List ℚ} {x : ℚ} (hx : x ∈ l) : listMin l ≤ x := by
  cases l with
  | nil => cases hx
  | cons y ys =>
    rcases List.mem_cons.1 hx with rfl | hx
    · exact foldl_min_le_init ys x
    · exact foldl_min_le_mem ys y x hx

theorem le_listMax {l : List ℚ} {x : ℚ} (hx : x ∈ l) : x ≤ listMax l := by
  cases l with
  | nil => cases hx
  | cons y ys =>
    rcases List.mem_cons.1 hx with rfl | hx
    · exact init_le_foldl_max ys x
    · exact mem_le_foldl_max ys y x hx

theorem foldl_min_mem (l : List ℚ) :
    ∀ a : ℚ, l.foldl min a = a ∨ l.foldl min a ∈ l := by
  induction l with
  | nil => intro a; left; rfl
  | cons y ys ih =>
    intro a
    simp only [List.foldl_cons]
    rcases ih (min a y) with h | h
    · rcases min_choice a y with hm | hm
      · left; rw [h, hm]
      · right; rw [h, hm]; exact List.mem_cons_self y ys
    · right; exact List.mem_cons_of_mem y h

theorem listMin_mem {l : List ℚ} (h : l ≠ []) : listMin l ∈ l := by
  cases l with
  | nil => exact absurd rfl h
  | cons y ys =>
    rcases foldl_min_mem ys y with h' | h'
    · rw [listMin, h']; exact List.mem_cons_self y ys
    · exact List.mem_cons_of_mem y h'

theorem foldl_max_mem (l : List ℚ) :
    ∀ a : ℚ, l.foldl max a = a ∨ l.foldl max a ∈ l := by
  induction l with
  | nil => intro a; left; rfl
  | cons y ys ih =>
    intro a
    simp only [List.foldl_cons]
    rcases ih (max a y) with h | h
    · rcases max_choice a y with hm | hm
      · left; rw [h, hm]
      · right; rw [h, hm]; exact List.mem_cons_self y ys
    · right; exact List.mem_cons_of_mem y h

theorem listMax_mem {l : List ℚ} (h : l ≠ []) : listMax l ∈ l := by
  cases l with
  | nil => exact absurd rfl h
  | cons y ys =>
    rcases foldl_max_mem ys y with h' | h'
    · rw [listMax, h']; exact List.mem_cons_self y ys
    · exact List.mem_cons_of_mem y h'

theorem listMin_le_listMax {l : List ℚ} (h : l ≠ []) : listMin l ≤ listMax l := by
  obtain ⟨x, hx⟩ := List.exists_mem_of_ne_nil l h
  exact le_trans (listMin_le hx) (le_listMax hx)

/-- On an all-defined score column the rescaler reduces to the pointwise
affine map. -/
theorem minMaxRescale_map_some (scores : List ℚ) (h : scores ≠ []) :
    minMaxRescale (scores.map some) =
      scores.map fun x =>
        some ((x - listMin scores) * 100 /
          scaleOf (listMax scores - listMin scores)
            (listMax scores - listMin scores)) := by
  unfold minMaxRescale
  rw [someVals_map_some]
  rw [if_neg (by simpa [List.isEmpty_iff] using h)]
  rw [List.map_map]
  rfl

/-! ## The min-max rescaling stage (lines 85-86): bounds and extremes -/

theorem mem_someVals {c : List (Option ℚ)} {x : ℚ} (h : some x ∈ c) :
    x ∈ someVals c := by
  rw [someVals, List.mem_filterMap]
  exact ⟨some x, h, rfl⟩

/-- Bounds of one rescaled value: for a defined score between the column
minimum and maximum, the rescaled value lies in [0, 100]. -/
theorem rescale_bounds {xs : List ℚ} {x : ℚ} (hx : x ∈ xs) :
    0 ≤ (x - listMin xs) * 100 /
        scaleOf (listMax xs - listMin xs) (listMax xs - listMin xs) ∧
    (x - listMin xs) * 100 /
        scaleOf (listMax xs - listMin xs) (listMax xs - listMin xs) ≤ 100 := by
  have hxl := listMin_le hx
  have hxu := le_listMax hx
  rcases eq_or_ne (listMax xs - listMin xs) 0 with h0 | h0
  · have hxeq : x = listMin xs := by linarith
    constructor <;> simp only [scaleOf, if_pos h0, hxeq] <;> norm_num
  · have hd : 0 < listMax xs - listMin xs :=
      lt_of_le_of_ne (by linarith) (Ne.symm h0)
    constructor <;> simp only [scaleOf, if_neg h0]
    · exact div_nonneg (by nlinarith) hd.le
    · rw [div_le_iff₀ hd]
      nlinarith

theorem rescale_max_val {xs : List ℚ} (hne : listMin xs ≠ listMax xs) :
    (listMax xs - listMin xs) * 100 /
      scaleOf (listMax xs - listMin xs) (listMax xs - listMin xs) = 100 := by
  have hd : listMax xs - listMin xs ≠ 0 := sub_ne_zero.2 (Ne.symm hne)
  simp only [scaleOf, if_neg hd]
  field_simp

/-- On a score column with at least one defined entry the rescaler reduces to
the pointwise affine map (NaN entries stay NaN). -/
theorem minMaxRescale_of_ne (scores : List (Option ℚ))
    (h : someVals scores ≠ []) :
    minMaxRescale scores =
      scores.map (Option.map fun x =>
        (x - listMin (someVals scores)) * 100 /
          scaleOf (listMax (someVals scores) - listMin (someVals scores))
            (listMax (someVals scores) - listMin (someVals scores))) := by
  unfold minMaxRescale
  rw [if_neg (by simpa [List.isEmpty_iff] using h)]

/-- Every entry of the rescaled score column is NaN or a value in [0, 100]. -/
theorem minMaxRescale_mem (scores : List (Option ℚ)) :
    ∀ r ∈ minMaxRescale scores, r = none ∨ ∃ x, r = some x ∧ 0 ≤ x ∧ x ≤ 100 := by
  intro r hr
  by_cases hxs : someVals scores = []
  · unfold minMaxRescale at hr
    rw [if_pos (by simpa [List.isEmpty_iff] using hxs)] at hr
    obtain ⟨v, _, rfl⟩ := List.mem_map.1 hr
    exact Or.inl rfl
  · rw [minMaxRescale_of_ne scores hxs] at hr
    obtain ⟨v, hv, rfl⟩ := List.mem_map.1 hr
    cases v with
    | none => exact Or.inl rfl
    | some x0 =>
      right
      rw [Option.map_some']
      exact ⟨_, rfl, (rescale_bounds (mem_someVals hv)).1,
        (rescale_bounds (mem_someVals hv)).2⟩

/-- C10: when every composite score is the same value, the zero range is
replaced by 1 (sklearn `_handle_zeros_in_scale`), there is no division by
zero, and every record is rated 0 (the lower bound, not the midpoint 50). -/
theorem c10_constant_scores_rate_zero (scores : List ℚ) (c0 : ℚ)
    (h : scores ≠ []) (hall : ∀ x ∈ scores, x = c0) :
    minMaxRescale (scores.map some) = scores.map fun _ => some 0 := by
  rw [minMaxRescale_map_some scores h]
  apply List.map_congr_left
  intro x hx
  have hlo : listMin scores = c0 := hall _ (listMin_mem h)
  have hhi : listMax scores = c0 := hall _ (listMax_mem h)
  have hx0 : x = c0 := hall _ hx
  rw [hlo, hhi, hx0]
  simp [scaleOf]

/-- Witness for C10 at the constant score column [5, 5]. -/
theorem c10_witness :
    minMaxRescale ([(5 : ℚ), 5].map some) = [(5 : ℚ), 5].map fun _ => some 0 :=
  c10_constant_scores_rate_zero [5, 5] 5 (by simp) (by
    intro x hx
    rcases List.mem_cons.1 hx with rfl | hx
    · rfl
    · simpa using hx)

/-! ## Sum lemmas for the standardizer and the imputer -/

theorem sum_map_sub_const (l : List ℚ) (μ : ℚ) :
    (l.map fun x => x - μ).sum = l.sum - l.length * μ := by
  induction l with
  | nil => simp
  | cons y ys ih =>
    simp only [List.map_cons, List.sum_cons, ih, List.length_cons]
    push_cast
    ring

theorem sum_map_div (l : List ℚ) (f : ℚ → ℚ) (s : ℚ) :
    (l.map fun x => f x / s).sum = (l.map f).sum / s := by
  induction l with
  | nil => simp
  | cons y ys ih =>
    simp only [List.map_cons, List.sum_cons, ih, add_div]

theorem sum_nonneg_all_zero (l : List ℚ) (h0 : ∀ x ∈ l, 0 ≤ x)
    (hs : l.sum = 0) : ∀ x ∈ l, x = 0 := by
  induction l with
  | nil => intro x hx; cases hx
  | cons y ys ih =>
    have hy : 0 ≤ y := h0 y (List.mem_cons_self y ys)
    have hys : 0 ≤ ys.sum :=
      List.sum_nonneg fun x hx => h0 x (List.mem_cons_of_mem y hx)
    rw [List.sum_cons] at hs
    have hy0 : y = 0 := by linarith
    intro x hx
    rcases List.mem_cons.1 hx with rfl | hx
    · exact hy0
    · exact ih (fun z hz => h0 z (List.mem_cons_of_mem y hz)) (by linarith) x hx

/-! ## C3: the standardizer (lines 73-75) -/

/-- One defined cell through `StandardScaler` on an all-defined column. -/
theorem zOf_map_some (c : List ℚ) (σ : ℚ) (hc : c ≠ []) (x : ℚ) :
    zOf (c.map some) σ (some x) =
      some ((x - popMean c) / scaleOf (popVar c) σ) := by
  simp only [zOf, someVals_map_some]
  rw [if_neg (by simpa [List.isEmpty_iff] using hc)]
  rfl

theorem standardizeCol_map_some (c : List ℚ) (σ : ℚ) (hc : c ≠ []) :
    standardizeCol (c.map some) σ =
      c.map fun x => some ((x - popMean c) / scaleOf (popVar c) σ) := by
  unfold standardizeCol
  rw [List.map_map]
  apply List.map_congr_left
  intro x _
  exact zOf_map_some c σ hc x

theorem someVals_standardizeCol (c : List ℚ) (σ : ℚ) (hc : c ≠ []) :
    someVals (standardizeCol (c.map some) σ) =
      c.map fun x => (x - popMean c) / scaleOf (popVar c) σ := by
  rw [standardizeCol_map_some c σ hc]
  rw [show (c.map fun x => some ((x - popMean c) / scaleOf (popVar c) σ)) =
      (c.map fun x => (x - popMean c) / scaleOf (popVar c) σ).map some by
    rw [List.map_map]; rfl]
  exact someVals_map_some _

/-- C3: on an all-defined column, `StandardScaler` subtracts the population
mean and divides by the population standard deviation σ (denominator N, via
`popMean`/`popVar`); the standardized column has mean 0; its population
variance is 1 (hence its population standard deviation is 1) unless the
column is constant, in which case every standardized value is 0 (the zero
scale is replaced by 1, no division by zero). -/
theorem c3_standardize_mean_zero_sd_one (c : List ℚ) (σ : ℚ) (hc : c ≠ [])
    (hσ : σ ^ 2 = popVar c) :
    someVals (standardizeCol (c.map some) σ) =
      (c.map fun x => (x - popMean c) / scaleOf (popVar c) σ) ∧
    popMean (someVals (standardizeCol (c.map some) σ)) = 0 ∧
    (popVar c ≠ 0 → popVar (someVals (standardizeCol (c.map some) σ)) = 1) ∧
    (popVar c = 0 → ∀ y ∈ someVals (standardizeCol (c.map some) σ), y = 0) := by
  have hN : (c.length : ℚ) ≠ 0 := by
    have := List.length_pos.2 hc
    positivity
  have hz := someVals_standardizeCol c σ hc
  have hsc : scaleOf (popVar c) σ ≠ 0 := by
    rcases eq_or_ne (popVar c) 0 with h0 | h0
    · simp [scaleOf, h0]
    · rw [scaleOf, if_neg h0]
      intro hσ0
      rw [hσ0] at hσ
      exact h0 (by linarith [hσ])
  have hμ : (c.length : ℚ) * popMean c = c.sum := by
    rw [popMean, mul_div_cancel₀ _ hN]
  have hsum0 : (c.map fun x => (x - popMean c) / scaleOf (popVar c) σ).sum = 0 := by
    rw [sum_map_div c (fun x => x - popMean c) (scaleOf (popVar c) σ),
      sum_map_sub_const]
    rw [show c.sum - (c.length : ℚ) * popMean c = 0 by linarith]
    exact zero_div _
  have hmean : popMean (someVals (standardizeCol (c.map some) σ)) = 0 := by
    rw [hz, popMean, hsum0, zero_div]
  refine ⟨hz, hmean, ?_, ?_⟩
  · intro h0
    have hss : (c.map fun x => (x - popMean c) ^ 2).sum =
        popVar c * c.length := by
      rw [popVar, div_mul_cancel₀ _ hN]
    rw [popVar, hmean]
    simp only [sub_zero, hz, List.map_map, List.length_map]
    rw [show ((fun y => y ^ 2) ∘ fun x => (x - popMean c) / scaleOf (popVar c) σ) =
        fun x => ((x - popMean c) ^ 2) / (scaleOf (popVar c) σ) ^ 2 by
      funext x; simp [div_pow]]
    rw [sum_map_div c (fun x => (x - popMean c) ^ 2) ((scaleOf (popVar c) σ) ^ 2)]
    rw [hss, scaleOf, if_neg h0, ← hσ]
    rw [scaleOf, if_neg h0] at hsc
    rw [div_div]
    exact div_self (mul_ne_zero (pow_ne_zero 2 hsc) hN)
  · intro h0
    have hss : (c.map fun x => (x - popMean c) ^ 2).sum = 0 := by
      have := popVar c
      rw [popVar, div_eq_zero_iff] at h0
      rcases h0 with h0 | h0
      · exact h0
      · exact absurd h0 hN
    have hall := sum_nonneg_all_zero (c.map fun x => (x - popMean c) ^ 2)
      (by
        intro x hx
        obtain ⟨w, _, rfl⟩ := List.mem_map.1 hx
        positivity)
      hss
    intro y hy
    rw [hz] at hy
    obtain ⟨x, hxmem, rfl⟩ := List.mem_map.1 hy
    have hx0 : (x - popMean c) ^ 2 = 0 :=
      hall _ (List.mem_map_of_mem (fun x => (x - popMean c) ^ 2) hxmem)
    have : x - popMean c = 0 := by
      exact pow_eq_zero_iff (n := 2) (by norm_num) |>.1 hx0
    rw [this, zero_div]

/-- Witness for C3 at the concrete column [0, 2] (mean 1, population
variance 1, σ = 1). -/
theorem c3_witness :
    someVals (standardizeCol ([(0 : ℚ), 2].map some) 1) =
      ([(0 : ℚ), 2].map fun x =>
        (x - popMean [(0 : ℚ), 2]) / scaleOf (popVar [(0 : ℚ), 2]) 1) ∧
    popMean (someVals (standardizeCol ([(0 : ℚ), 2].map some) 1)) = 0 ∧
    (popVar [(0 : ℚ), 2] ≠ 0 →
      popVar (someVals (standardizeCol ([(0 : ℚ), 2].map some) 1)) = 1) ∧
    (popVar [(0 : ℚ), 2] = 0 →
      ∀ y ∈ someVals (standardizeCol ([(0 : ℚ), 2].map some) 1), y = 0) :=
  c3_standardize_mean_zero_sd_one [0, 2] 1 (by simp)
    (by norm_num [popVar, popMean])

/-! ## C8: the imputer (lines 67-69) -/

theorem someVals_cons_none (t : List (Option ℚ)) :
    someVals (none :: t) = someVals t := rfl

theorem someVals_cons_some (x : ℚ) (t : List (Option ℚ)) :
    someVals (some x :: t) = x :: someVals t := rfl

theorem sum_getD_eq (c : List (Option ℚ)) (m : ℚ) :
    (c.map fun v => v.getD m).sum + ((someVals c).length : ℚ) * m =
      (someVals c).sum + (c.length : ℚ) * m := by
  induction c with
  | nil => simp [someVals]
  | cons v t ih =>
    cases v with
    | none =>
      simp only [List.map_cons, List.sum_cons, Option.getD_none,
        List.length_cons, someVals_cons_none]
      push_cast
      linarith
    | some x =>
      simp only [List.map_cons, List.sum_cons, Option.getD_some,
        List.length_cons, someVals_cons_some]
      push_cast
      linarith

/-- C8: filling the NaN cells of a column with the mean of its defined cells
leaves no NaN cell and does not change the column mean: the mean over all
rows after imputation equals the mean of the originally defined cells. -/
theorem c8_impute_mean_invariant (c : List (Option ℚ)) (h : someVals c ≠ []) :
    (∀ v ∈ fillna c, v.isSome = true) ∧
    popMean (someVals (fillna c)) = popMean (someVals c) := by
  have hm : colMean c = some (popMean (someVals c)) := by
    rw [colMean, if_neg h]
  have hfill : fillna c =
      c.map fun v => some (v.getD (popMean (someVals c))) := by
    rw [fillna, hm]
  have hk : ((someVals c).length : ℚ) ≠ 0 := by
    have := List.length_pos.2 h
    positivity
  have hN : ((c.length : ℕ) : ℚ) ≠ 0 := by
    have hle : (someVals c).length ≤ c.length := List.length_filterMap_le id c
    have hpos : 0 < (someVals c).length := List.length_pos.2 h
    have : 0 < c.length := lt_of_lt_of_le hpos hle
    positivity
  constructor
  · intro v hv
    rw [hfill] at hv
    obtain ⟨w, _, rfl⟩ := List.mem_map.1 hv
    rfl
  · rw [hfill]
    rw [show (c.map fun v => some (v.getD (popMean (someVals c)))) =
        (c.map fun v => v.getD (popMean (someVals c))).map some by
      rw [List.map_map]; rfl]
    rw [someVals_map_some]
    have hkm : ((someVals c).length : ℚ) * popMean (someVals c) =
        (someVals c).sum := by
      rw [popMean, mul_div_cancel₀ _ hk]
    have hsum := sum_getD_eq c (popMean (someVals c))
    have hT : (c.map fun v => v.getD (popMean (someVals c))).sum =
        (c.length : ℚ) * popMean (someVals c) := by linarith
    rw [popMean, List.length_map, hT, mul_div_cancel_left₀ _ hN]

/-- Witness for C8 at the concrete column [10, 20, 30, missing] (the spec
scenario: the missing entry is imputed as 20 and the mean stays 20). -/
theorem c8_witness :
    (∀ v ∈ fillna [some (10 : ℚ), some 20, some 30, none], v.isSome = true) ∧
    popMean (someVals (fillna [some (10 : ℚ), some 20, some 30, none])) =
      popMean (someVals [some (10 : ℚ), some 20, some 30, none]) :=
  c8_impute_mean_invariant [some 10, some 20, some 30, none] (by
    simp [someVals])

/-! ## Lemmas about the stable sort and `sortDesc` -/

theorem insort_perm (le : α → α → Bool) (x : α) :
    ∀ l : List α, (insort le x l).Perm (x :: l) := by
  intro l
  induction l with
  | nil => simp [insort]
  | cons y ys ih =>
    rw [insort]
    by_cases hxy : le x y = true
    · rw [if_pos hxy]
    · rw [if_neg hxy]
      exact (ih.cons y).trans (List.Perm.swap x y ys)

theorem sortAsc_perm (le : α → α → Bool) :
    ∀ l : List α, (sortAsc le l).Perm l := by
  intro l
  induction l with
  | nil => simp [sortAsc]
  | cons y ys ih =>
    rw [sortAsc]
    exact (insort_perm le y (sortAsc le ys)).trans (ih.cons y)

theorem mem_sortAsc {le : α → α → Bool} {l : List α} {a : α} :
    a ∈ sortAsc le l ↔ a ∈ l :=
  (sortAsc_perm le l).mem_iff

theorem mem_of_mem_sortDesc {l : List (Record × Option ℚ)}
    {p : Record × Option ℚ} (h : p ∈ sortDesc l) : p ∈ l := by
  unfold sortDesc at h
  rcases List.mem_append.1 h with h | h
  · have := mem_sortAsc.1 (List.mem_reverse.1 h)
    exact (List.mem_filter.1 (List.mem_reverse.1 this)).1
  · exact (List.mem_filter.1 h).1

/-! ## Pipeline plumbing lemmas -/

theorem someVals_nil : someVals [] = [] := rfl

theorem colMean_cons_defined (x : ℚ) (t : List (Option ℚ)) :
    colMean (some x :: t) = some (popMean (someVals (some x :: t))) := by
  rw [colMean, if_neg]
  intro h
  rw [someVals_cons_some] at h
  exact List.cons_ne_nil _ _ h

theorem colMean_cons_none (t : List (Option ℚ)) :
    colMean (none :: t) = colMean t := rfl

theorem setStat_games (r : Record) (s : Stat) (v : Option ℚ) :
    (r.setStat s v).games = r.games := by
  cases s <;> rfl

theorem setStat_player (r : Record) (s : Stat) (v : Option ℚ) :
    (r.setStat s v).player = r.player := by
  cases s <;> rfl

/-- Every row of the imputed frame is a row of the filtered frame with the
same player and `Games` cells (imputation only rewrites statistic cells). -/
theorem mem_foldl_fillCol {hasCol : Stat → Bool} :
    ∀ (L : List Stat) (rows : List Record) (r' : Record),
      r' ∈ L.foldl (fun rs s => if hasCol s then fillCol s rs else rs) rows →
      ∃ r ∈ rows, r'.games = r.games ∧ r'.player = r.player := by
  intro L
  induction L with
  | nil => intro rows r' h; exact ⟨r', h, rfl, rfl⟩
  | cons s L ih =>
    intro rows r' h
    rw [List.foldl_cons] at h
    obtain ⟨r₁, hr₁, hg, hp⟩ := ih _ r' h
    by_cases hs : hasCol s = true
    · rw [if_pos hs] at hr₁
      cases hmean : colMean (colOf rows s) with
      | none =>
        rw [fillCol, hmean] at hr₁
        exact ⟨r₁, hr₁, hg, hp⟩
      | some m =>
        rw [fillCol, hmean] at hr₁
        obtain ⟨r, hr, rfl⟩ := List.mem_map.1 hr₁
        exact ⟨r, hr, by rw [hg, setStat_games], by rw [hp, setStat_player]⟩
    · rw [if_neg hs] at hr₁
      exact ⟨r₁, hr₁, hg, hp⟩

theorem mem_imputeRows {hasCol : Stat → Bool} {rows : List Record}
    {r' : Record} (h : r' ∈ imputeRows hasCol rows) :
    ∃ r ∈ rows, r'.games = r.games ∧ r'.player = r.player :=
  mem_foldl_fillCol keyStats rows r' h

/-- A successful run passes the `df[key_stats]` lookup, had a nonempty
filtered frame, and printed the first 20 rows of the descending sort of the
rated rows. -/
theorem analyze_ok_elim {ds : Dataset} {σ : Stat → ℚ}
    {out : List (Record × Option ℚ)} (h : analyze ds σ = .ok out) :
    keyStats.all ds.hasCol = true ∧
    (imputeRows ds.hasCol (filterRows ds.rows)).isEmpty = false ∧
    out = (sortDesc (ratedRows ds σ)).take 20 := by
  rw [analyze] at h
  cases hk : keyStats.all ds.hasCol with
  | false => rw [hk] at h; simp at h
  | true =>
    rw [hk] at h
    cases he : (imputeRows ds.hasCol (filterRows ds.rows)).isEmpty with
    | true => rw [he] at h; simp at h
    | false =>
      rw [he] at h
      simp only [Bool.not_true, Bool.false_eq_true, if_false,
        Except.ok.injEq] at h
      exact ⟨rfl, rfl, h.symm⟩

/-! ## C7: the filter stage (line 62) and its reach into the output -/

/-- C7: the filtered frame holds exactly the rows of the loaded table whose
`Games` cell is a number at least `min_games` (a NaN `Games` cell is
excluded); and every row of a successful run's printed output satisfies
`Games ≥ min_games`. -/
theorem c7_filter_membership_and_output (ds : Dataset) (σ : Stat → ℚ)
    (out : List (Record × Option ℚ)) (h : analyze ds σ = .ok out) :
    (∀ r : Record, r ∈ filterRows ds.rows ↔
      r ∈ ds.rows ∧ ∃ g, r.games = some g ∧ minGames ≤ g) ∧
    (∀ p ∈ out, ∃ g, p.1.games = some g ∧ minGames ≤ g) := by
  constructor
  · intro r
    rw [filterRows, List.mem_filter]
    constructor
    · rintro ⟨hmem, hcond⟩
      refine ⟨hmem, ?_⟩
      cases hg : r.games with
      | none => rw [hg] at hcond; cases hcond
      | some g =>
        rw [hg] at hcond
        exact ⟨g, rfl, by simpa using hcond⟩
    · rintro ⟨hmem, g, hg, hge⟩
      refine ⟨hmem, ?_⟩
      rw [hg]
      simpa using hge
  · intro p hp
    obtain ⟨hk, he, hout⟩ := analyze_ok_elim h
    rw [hout] at hp
    have hp1 : p ∈ sortDesc (ratedRows ds σ) :=
      (List.take_sublist 20 _).mem hp
    have hp2 : p ∈ ratedRows ds σ := mem_of_mem_sortDesc hp1
    have hp3 : p.1 ∈ imputeRows ds.hasCol (filterRows ds.rows) :=
      (List.of_mem_zip hp2).1
    obtain ⟨r, hr, hg, _⟩ := mem_imputeRows hp3
    rw [filterRows, List.mem_filter] at hr
    cases hgm : r.games with
    | none => rw [hgm] at hr; cases hr.2
    | some g =>
      refine ⟨g, by rw [hg, hgm], ?_⟩
      have := hr.2
      rw [hgm] at this
      simpa using this

/-! ## Concrete evaluation of a successful run on `dsOK` -/

theorem dsOK_rows_eval : dsOK.rows = [rowA, rowB] := rfl

theorem dsOK_hasCol_eval : dsOK.hasCol = fun _ => true := rfl

theorem filterRows_dsOK : filterRows [rowA, rowB] = [rowA, rowB] := by
  norm_num [filterRows, rowA, rowB, minGames]

theorem fillCol_dsOK (s : Stat) : fillCol s [rowA, rowB] = [rowA, rowB] := by
  cases s <;>
    norm_num [fillCol, colOf, colMean_cons_defined, Record.stat,
      Record.setStat, rowA, rowB]

theorem imputeRows_dsOK : imputeRows (fun _ => true) [rowA, rowB] = [rowA, rowB] := by
  simp [imputeRows, keyStats, fillCol_dsOK]

theorem compositeScore_dsOK_A :
    compositeScore dsOK [rowA, rowB] sigma0 rowA = some 0 := by
  norm_num [compositeScore, activeStats, keyStats, dsOK, sigma0, zOf, colOf,
    someVals_cons_some, someVals_nil, popMean, popVar, scaleOf, statWeight,
    rowA, rowB, Record.stat, List.cons_ne_nil]

theorem compositeScore_dsOK_B :
    compositeScore dsOK [rowA, rowB] sigma0 rowB = some 0 := by
  norm_num [compositeScore, activeStats, keyStats, dsOK, sigma0, zOf, colOf,
    someVals_cons_some, someVals_nil, popMean, popVar, scaleOf, statWeight,
    rowA, rowB, Record.stat, List.cons_ne_nil]

theorem minMaxRescale_zeros :
    minMaxRescale [some (0 : ℚ), some 0] = [some 0, some 0] := by
  norm_num [minMaxRescale, someVals_cons_some, someVals_nil, listMin, listMax,
    scaleOf]

theorem sortDesc_dsOK :
    sortDesc [(rowA, some 0), (rowB, some 0)] = [(rowA, some 0), (rowB, some 0)] := by
  norm_num [sortDesc, sortAsc, insort, ratingLE]

theorem ratedRows_dsOK :
    ratedRows dsOK sigma0 = [(rowA, some 0), (rowB, some 0)] := by
  rw [ratedRows]
  simp only [dsOK_rows_eval, dsOK_hasCol_eval, filterRows_dsOK, imputeRows_dsOK,
    List.map_cons, List.map_nil, compositeScore_dsOK_A, compositeScore_dsOK_B,
    minMaxRescale_zeros, List.zip_cons_cons, List.zip_nil_right]

theorem analyze_dsOK :
    analyze dsOK sigma0 = .ok [(rowA, some 0), (rowB, some 0)] := by
  rw [analyze]
  simp only [dsOK_rows_eval, dsOK_hasCol_eval, filterRows_dsOK, imputeRows_dsOK,
    List.map_cons, List.map_nil, compositeScore_dsOK_A, compositeScore_dsOK_B,
    minMaxRescale_zeros, List.zip_cons_cons, List.zip_nil_right, sortDesc_dsOK,
    keyStats, List.all_cons, List.all_nil, Bool.and_self, Bool.not_true,
    List.isEmpty_cons, Bool.false_eq_true, if_false, List.take_succ_cons,
    List.take_nil]

/-- Witness for C7 at the concrete run on `dsOK`. -/
theorem c7_witness :
    (∀ r : Record, r ∈ filterRows dsOK.rows ↔
      r ∈ dsOK.rows ∧ ∃ g, r.games = some g ∧ minGames ≤ g) ∧
    (∀ p ∈ [(rowA, some (0 : ℚ)), (rowB, some 0)],
      ∃ g, p.1.games = some g ∧ minGames ≤ g) :=
  c7_filter_membership_and_output dsOK sigma0 [(rowA, some 0), (rowB, some 0)]
    analyze_dsOK

/-! ## C2: a configured column absent from the CSV (lines 51-56 and 74) -/

/-- C2 is a code bug: when the `VSPM` column is absent the loop at lines
51-56 prints the warning and pops the weight, but `key_stats` (computed at
line 23) still lists the column, so `df[key_stats]` at line 74 raises an
uncaught `KeyError` — the run fails instead of computing ratings from the
remaining statistics. -/
theorem c2_missing_column_warns_then_crashes :
    schemaWarnings dsNoVspm = [Stat.vspm] ∧
    analyze dsNoVspm sigma0 = .error .keyError := by
  constructor
  · simp [schemaWarnings, dsNoVspm, keyStats]
  · rw [analyze]
    simp [dsNoVspm, keyStats]

/-! ## C5: the filter removes every row (lines 62 and 75) -/

theorem colMean_nil : colMean [] = none := rfl

theorem filterRows_dsAllFiltered : filterRows [rowFew] = [] := by
  norm_num [filterRows, rowFew, minGames]

theorem imputeRows_nil : imputeRows (fun _ => true) [] = [] := by
  simp [imputeRows, keyStats, fillCol, colOf, colMean_nil]

/-- C5 is a code bug: when no row reaches `min_games` the script does not
signal an empty-result condition; `StandardScaler().fit_transform` at line 75
raises an uncaught `ValueError` (zero samples) and the run dies with a
traceback instead of terminating cleanly. -/
theorem c5_empty_filter_uncaught_valueerror :
    analyze dsAllFiltered sigma0 = .error .emptySamples := by
  rw [analyze]
  simp only [dsAllFiltered, filterRows_dsAllFiltered, imputeRows_nil]
  simp [keyStats]

/-! ## C6: a present column with every value missing (lines 67-69 and 73-86) -/

theorem ds6_rows_eval : dsAllMissingVspm.rows = [rowA6, rowB6] := rfl

theorem ds6_hasCol_eval : dsAllMissingVspm.hasCol = fun _ => true := rfl

theorem filterRows_ds6 : filterRows [rowA6, rowB6] = [rowA6, rowB6] := by
  norm_num [filterRows, rowA6, rowB6, minGames]

theorem fillCol_ds6 (s : Stat) : fillCol s [rowA6, rowB6] = [rowA6, rowB6] := by
  cases s <;>
    norm_num [fillCol, colOf, colMean_cons_defined, colMean_cons_none,
      colMean_nil, Record.stat, Record.setStat, rowA6, rowB6]

theorem imputeRows_ds6 :
    imputeRows (fun _ => true) [rowA6, rowB6] = [rowA6, rowB6] := by
  simp [imputeRows, keyStats, fillCol_ds6]

theorem compositeScore_ds6_A :
    compositeScore dsAllMissingVspm [rowA6, rowB6] sigma0 rowA6 = none := by
  norm_num [compositeScore, activeStats, keyStats, dsAllMissingVspm, sigma0,
    zOf, colOf, someVals_cons_some, someVals_cons_none, someVals_nil, popMean,
    popVar, scaleOf, statWeight, rowA6, rowB6, Record.stat, List.cons_ne_nil]

theorem compositeScore_ds6_B :
    compositeScore dsAllMissingVspm [rowA6, rowB6] sigma0 rowB6 = none := by
  norm_num [compositeScore, activeStats, keyStats, dsAllMissingVspm, sigma0,
    zOf, colOf, someVals_cons_some, someVals_cons_none, someVals_nil, popMean,
    popVar, scaleOf, statWeight, rowA6, rowB6, Record.stat, List.cons_ne_nil]

theorem minMaxRescale_nones :
    minMaxRescale [(none : Option ℚ), none] = [none, none] := by
  simp [minMaxRescale, someVals_cons_none, someVals_nil]

theorem sortDesc_ds6 :
    sortDesc [(rowA6, none), (rowB6, none)] = [(rowA6, none), (rowB6, none)] := by
  simp [sortDesc, sortAsc, insort, ratingLE]

/-- The full run on `dsAllMissingVspm`: output is produced and every rating
is NaN. -/
theorem analyze_ds6_eval :
    analyze dsAllMissingVspm sigma0 = .ok [(rowA6, none), (rowB6, none)] := by
  rw [analyze]
  simp only [ds6_rows_eval, ds6_hasCol_eval, filterRows_ds6, imputeRows_ds6,
    List.map_cons, List.map_nil, compositeScore_ds6_A, compositeScore_ds6_B,
    minMaxRescale_nones, List.zip_cons_cons, List.zip_nil_right,
    sortDesc_ds6, keyStats, List.all_cons, List.all_nil, Bool.and_self,
    Bool.not_true, List.isEmpty_cons, Bool.false_eq_true, if_false,
    List.take_succ_cons, List.take_nil]

/-- C6 is a code bug: when the present `VSPM` column is missing in every
filtered row, `fillna` fills NaN with the NaN mean, `StandardScaler` keeps
the column NaN, every composite score and every `PlayerRating` becomes NaN,
and the run prints the NaN ratings without any data-quality error for the
statistic and without excluding it. -/
theorem c6_all_missing_stat_silent_nan_ratings :
    analyze dsAllMissingVspm sigma0 = .ok [(rowA6, none), (rowB6, none)] ∧
    ∀ p ∈ [(rowA6, (none : Option ℚ)), (rowB6, none)], p.2 = none := by
  constructor
  · exact analyze_ds6_eval
  · intro p hp
    rcases List.mem_cons.1 hp with rfl | hp
    · rfl
    · rcases List.mem_cons.1 hp with rfl | hp
      · rfl
      · cases hp

/-! ## C9: what the report displays (lines 67-69 and 93-96) -/

theorem ds9_rows_eval : dsMissingWr.rows = [rowA9, rowB9] := rfl

theorem ds9_hasCol_eval : dsMissingWr.hasCol = fun _ => true := rfl

theorem filterRows_ds9 : filterRows [rowA9, rowB9] = [rowA9, rowB9] := by
  norm_num [filterRows, rowA9, rowB9, minGames]

theorem fillCol_ds9_wr :
    fillCol .winRate [rowA9, rowB9] = [rowA9imp, rowB9] := by
  norm_num [fillCol, colOf, colMean_cons_defined, colMean_cons_none,
    someVals_cons_some, someVals_cons_none, someVals_nil, popMean,
    Record.stat, Record.setStat, rowA9, rowB9, rowA9imp, List.cons_ne_nil]

theorem fillCol_ds9_rest (s : Stat) :
    fillCol s [rowA9imp, rowB9] = [rowA9imp, rowB9] := by
  cases s <;>
    norm_num [fillCol, colOf, colMean_cons_defined, Record.stat,
      Record.setStat, rowA9imp, rowB9]

theorem imputeRows_ds9 :
    imputeRows (fun _ => true) [rowA9, rowB9] = [rowA9imp, rowB9] := by
  simp [imputeRows, keyStats, fillCol_ds9_wr, fillCol_ds9_rest]

theorem compositeScore_ds9_A :
    compositeScore dsMissingWr [rowA9imp, rowB9] sigma0 rowA9imp = some 0 := by
  norm_num [compositeScore, activeStats, keyStats, dsMissingWr, sigma0, zOf,
    colOf, someVals_cons_some, someVals_nil, popMean, popVar, scaleOf,
    statWeight, rowA9imp, rowB9, Record.stat, List.cons_ne_nil]

theorem compositeScore_ds9_B :
    compositeScore dsMissingWr [rowA9imp, rowB9] sigma0 rowB9 = some 0 := by
  norm_num [compositeScore, activeStats, keyStats, dsMissingWr, sigma0, zOf,
    colOf, someVals_cons_some, someVals_nil, popMean, popVar, scaleOf,
    statWeight, rowA9imp, rowB9, Record.stat, List.cons_ne_nil]

theorem sortDesc_ds9 :
    sortDesc [(rowA9imp, some 0), (rowB9, some 0)] =
      [(rowA9imp, some 0), (rowB9, some 0)] := by
  norm_num [sortDesc, sortAsc, insort, ratingLE]

/-- C9 as stated is false: in the run on `dsMissingWr`, the printed row for
player A displays `Win Rate` 40 — the imputed column mean — although player
A's `Win Rate` cell in the FilteredDataset is missing: the report reads the
frame that `fillna` mutated in place, not the pre-imputation values. -/
theorem c9_counterexample :
    analyze dsMissingWr sigma0 = .ok [(rowA9imp, some 0), (rowB9, some 0)] ∧
    (filterRows dsMissingWr.rows)[0]? = some rowA9 ∧
    rowA9imp.player = rowA9.player ∧
    rowA9.winRate = none ∧
    rowA9imp.winRate = some 40 := by
  refine ⟨?_, ?_, rfl, rfl, rfl⟩
  · rw [analyze]
    simp only [ds9_rows_eval, ds9_hasCol_eval, filterRows_ds9, imputeRows_ds9,
      List.map_cons, List.map_nil, compositeScore_ds9_A, compositeScore_ds9_B,
      minMaxRescale_zeros, List.zip_cons_cons, List.zip_nil_right,
      sortDesc_ds9, keyStats, List.all_cons, List.all_nil, Bool.and_self,
      Bool.not_true, List.isEmpty_cons, Bool.false_eq_true, if_false,
      List.take_succ_cons, List.take_nil]
  · rw [ds9_rows_eval, filterRows_ds9]
    rfl

/-! ### Column bookkeeping for the amended C9 -/

theorem setStat_stat_self (r : Record) (s : Stat) (v : Option ℚ) :
    (r.setStat s v).stat s = v := by
  cases s <;> rfl

theorem setStat_stat_ne (r : Record) (s t : Stat) (v : Option ℚ)
    (h : t ≠ s) : (r.setStat s v).stat t = r.stat t := by
  cases s <;> cases t <;> first | rfl | exact absurd rfl h

theorem colOf_fillCol_self (s : Stat) (rows : List Record) :
    colOf (fillCol s rows) s = fillna (colOf rows s) := by
  cases hm : colMean (colOf rows s) with
  | none => simp only [fillCol, fillna, hm]
  | some m =>
    simp only [fillCol, fillna, hm]
    simp only [colOf, List.map_map]
    apply List.map_congr_left
    intro r _
    simp only [Function.comp_apply, setStat_stat_self]

theorem colOf_fillCol_ne (s t : Stat) (rows : List Record) (h : t ≠ s) :
    colOf (fillCol s rows) t = colOf rows t := by
  cases hm : colMean (colOf rows s) with
  | none => simp only [fillCol, hm]
  | some m =>
    simp only [fillCol, hm]
    simp only [colOf, List.map_map]
    apply List.map_congr_left
    intro r _
    simp only [Function.comp_apply, setStat_stat_ne r s t _ h]

theorem colOf_foldl_fill (hasCol : Stat → Bool) :
    ∀ L : List Stat, L.Nodup → ∀ (rows : List Record) (t : Stat),
      colOf (L.foldl (fun rs s => if hasCol s then fillCol s rs else rs) rows) t =
        if t ∈ L ∧ hasCol t = true then fillna (colOf rows t)
        else colOf rows t := by
  intro L
  induction L with
  | nil =>
    intro _ rows t
    simp
  | cons s L ih =>
    intro hnd rows t
    rw [List.foldl_cons]
    by_cases hts : t = s
    · subst hts
      have htL : t ∉ L := (List.nodup_cons.1 hnd).1
      rw [ih (List.nodup_cons.1 hnd).2]
      rw [if_neg fun hc => htL hc.1]
      by_cases hc : hasCol t = true
      · rw [if_pos hc, colOf_fillCol_self,
          if_pos ⟨List.mem_cons_self t L, hc⟩]
      · rw [if_neg hc, if_neg fun h => hc h.2]
    · rw [ih (List.nodup_cons.1 hnd).2]
      have hcoleq :
          colOf (if hasCol s = true then fillCol s rows else rows) t =
            colOf rows t := by
        by_cases hcs : hasCol s = true
        · rw [if_pos hcs, colOf_fillCol_ne s t rows hts]
        · rw [if_neg hcs]
      rw [hcoleq]
      by_cases htl : t ∈ L ∧ hasCol t = true
      · rw [if_pos htl, if_pos ⟨List.mem_cons_of_mem s htl.1, htl.2⟩]
      · rw [if_neg htl,
          if_neg fun h => htl ⟨(List.mem_cons.1 h.1).resolve_left hts, h.2⟩]

theorem mem_keyStats (t : Stat) : t ∈ keyStats := by
  cases t <;> simp [keyStats]

theorem keyStats_nodup : keyStats.Nodup := by
  simp [keyStats]

theorem colOf_imputeRows (hasCol : Stat → Bool) (rows : List Record)
    (t : Stat) :
    colOf (imputeRows hasCol rows) t =
      if hasCol t = true then fillna (colOf rows t) else colOf rows t := by
  rw [imputeRows, colOf_foldl_fill hasCol keyStats keyStats_nodup rows t]
  by_cases hc : hasCol t = true
  · rw [if_pos ⟨mem_keyStats t, hc⟩, if_pos hc]
  · rw [if_neg fun h => hc h.2, if_neg hc]

theorem fillCol_map_games (s : Stat) (rows : List Record) :
    (fillCol s rows).map (·.games) = rows.map (·.games) := by
  cases hm : colMean (colOf rows s) with
  | none => simp only [fillCol, hm]
  | some m =>
    simp only [fillCol, hm, List.map_map]
    apply List.map_congr_left
    intro r _
    simp only [Function.comp_apply, setStat_games]

theorem fillCol_map_player (s : Stat) (rows : List Record) :
    (fillCol s rows).map (·.player) = rows.map (·.player) := by
  cases hm : colMean (colOf rows s) with
  | none => simp only [fillCol, hm]
  | some m =>
    simp only [fillCol, hm, List.map_map]
    apply List.map_congr_left
    intro r _
    simp only [Function.comp_apply, setStat_player]

theorem foldl_fill_map_games (hasCol : Stat → Bool) :
    ∀ (L : List Stat) (rows : List Record),
      (L.foldl (fun rs s => if hasCol s then fillCol s rs else rs) rows).map
          (·.games) = rows.map (·.games) := by
  intro L
  induction L with
  | nil => intro rows; rfl
  | cons s L ih =>
    intro rows
    rw [List.foldl_cons, ih]
    by_cases hcs : hasCol s = true
    · rw [if_pos hcs, fillCol_map_games]
    · rw [if_neg hcs]

theorem foldl_fill_map_player (hasCol : Stat → Bool) :
    ∀ (L : List Stat) (rows : List Record),
      (L.foldl (fun rs s => if hasCol s then fillCol s rs else rs) rows).map
          (·.player) = rows.map (·.player) := by
  intro L
  induction L with
  | nil => intro rows; rfl
  | cons s L ih =>
    intro rows
    rw [List.foldl_cons, ih]
    by_cases hcs : hasCol s = true
    · rw [if_pos hcs, fillCol_map_player]
    · rw [if_neg hcs]

theorem imputeRows_map_games (hasCol : Stat → Bool) (rows : List Record) :
    (imputeRows hasCol rows).map (·.games) = rows.map (·.games) :=
  foldl_fill_map_games hasCol keyStats rows

theorem imputeRows_map_player (hasCol : Stat → Bool) (rows : List Record) :
    (imputeRows hasCol rows).map (·.player) = rows.map (·.player) :=
  foldl_fill_map_player hasCol keyStats rows

theorem imputeRows_length (hasCol : Stat → Bool) (rows : List Record) :
    (imputeRows hasCol rows).length = rows.length := by
  have h := congrArg List.length (imputeRows_map_games hasCol rows)
  simpa using h

/-- C9 amended: the statistics displayed by the report come from the frame
that the imputation loop mutated in place — every printed row corresponds
positionally to a row of the FilteredDataset with the same player and
`Games`; a statistic value that was present in the input is displayed
unmodified, but a missing value is displayed as the imputed column mean over
the FilteredDataset (and stays missing when that mean is itself undefined). -/
theorem c9_amended_display_from_imputed (ds : Dataset) (σ : Stat → ℚ)
    (out : List (Record × Option ℚ)) (h : analyze ds σ = .ok out) :
    ∀ p ∈ out, ∃ i : ℕ, ∃ r : Record,
      (filterRows ds.rows)[i]? = some r ∧
      p.1.player = r.player ∧ p.1.games = r.games ∧
      ∀ s : Stat,
        (ds.hasCol s = false → p.1.stat s = r.stat s) ∧
        (∀ v, r.stat s = some v → p.1.stat s = some v) ∧
        (ds.hasCol s = true → r.stat s = none →
          p.1.stat s = colMean (colOf (filterRows ds.rows) s)) := by
  obtain ⟨hk, he, hout⟩ := analyze_ok_elim h
  intro p hp
  rw [hout] at hp
  have hp2 : p ∈ ratedRows ds σ :=
    mem_of_mem_sortDesc ((List.take_sublist 20 _).mem hp)
  have hp3 : p.1 ∈ imputeRows ds.hasCol (filterRows ds.rows) :=
    (List.of_mem_zip hp2).1
  obtain ⟨i, hi⟩ := List.mem_iff_getElem?.1 hp3
  have hilen : i < (imputeRows ds.hasCol (filterRows ds.rows)).length := by
    rcases List.getElem?_eq_some.1 hi with ⟨hlt, _⟩
    exact hlt
  have hirows : i < (filterRows ds.rows).length := by
    rw [← imputeRows_length ds.hasCol (filterRows ds.rows)]
    exact hilen
  have hcolr : ∀ s : Stat, (colOf (filterRows ds.rows) s)[i]? =
      some (((filterRows ds.rows).get ⟨i, hirows⟩).stat s) := by
    intro s
    rw [colOf, List.getElem?_map, List.getElem?_eq_getElem hirows]
    rfl
  have hcoli : ∀ s : Stat,
      (colOf (imputeRows ds.hasCol (filterRows ds.rows)) s)[i]? =
        some (p.1.stat s) := by
    intro s
    rw [colOf, List.getElem?_map, hi]
    rfl
  refine ⟨i, (filterRows ds.rows).get ⟨i, hirows⟩, ?_, ?_, ?_, ?_⟩
  · rw [List.getElem?_eq_getElem hirows]
    simp
  · have h1 : ((imputeRows ds.hasCol (filterRows ds.rows)).map
        (·.player))[i]? = some p.1.player := by
      rw [List.getElem?_map, hi]
      rfl
    rw [imputeRows_map_player, List.getElem?_map,
      List.getElem?_eq_getElem hirows] at h1
    simpa using h1.symm
  · have h1 : ((imputeRows ds.hasCol (filterRows ds.rows)).map
        (·.games))[i]? = some p.1.games := by
      rw [List.getElem?_map, hi]
      rfl
    rw [imputeRows_map_games, List.getElem?_map,
      List.getElem?_eq_getElem hirows] at h1
    simpa using h1.symm
  · intro s
    have hcol := hcoli s
    rw [colOf_imputeRows] at hcol
    refine ⟨?_, ?_, ?_⟩
    · intro hcs
      rw [if_neg (by simp [hcs])] at hcol
      rw [hcolr s] at hcol
      exact (Option.some.inj hcol).symm
    · intro v hv
      by_cases hcs : ds.hasCol s = true
      · rw [if_pos hcs] at hcol
        cases hm : colMean (colOf (filterRows ds.rows) s) with
        | none =>
          simp only [fillna, hm] at hcol
          rw [hcolr s] at hcol
          rw [← Option.some.inj hcol, hv]
        | some m =>
          simp only [fillna, hm] at hcol
          rw [List.getElem?_map, hcolr s] at hcol
          simp only [Option.map_some'] at hcol
          rw [← Option.some.inj hcol, hv]
          rfl
      · rw [if_neg hcs] at hcol
        rw [hcolr s] at hcol
        rw [← Option.some.inj hcol, hv]
    · intro hcs hnone
      rw [if_pos hcs] at hcol
      cases hm : colMean (colOf (filterRows ds.rows) s) with
      | none =>
        simp only [fillna, hm] at hcol
        rw [hcolr s] at hcol
        rw [← Option.some.inj hcol, hnone]
      | some m =>
        simp only [fillna, hm] at hcol
        rw [List.getElem?_map, hcolr s] at hcol
        simp only [Option.map_some'] at hcol
        rw [← Option.some.inj hcol, hnone]
        rfl

/-- Witness for the amended C9 at the concrete run on `dsOK`, specialized to
the printed row of player A. -/
theorem c9_witness :
    ∃ i : ℕ, ∃ r : Record,
      (filterRows dsOK.rows)[i]? = some r ∧
      (rowA, some (0 : ℚ)).1.player = r.player ∧
      (rowA, some (0 : ℚ)).1.games = r.games ∧
      ∀ s : Stat,
        (dsOK.hasCol s = false → (rowA, some (0 : ℚ)).1.stat s = r.stat s) ∧
        (∀ v, r.stat s = some v → (rowA, some (0 : ℚ)).1.stat s = some v) ∧
        (dsOK.hasCol s = true → r.stat s = none →
          (rowA, some (0 : ℚ)).1.stat s =
            colMean (colOf (filterRows dsOK.rows) s)) :=
  c9_amended_display_from_imputed dsOK sigma0 [(rowA, some 0), (rowB, some 0)]
    analyze_dsOK (rowA, some 0) (by simp)

/-! ## C1: PlayerRating bounds and extremes over full runs -/

theorem zip_getElem_iff {α β : Type _} :
    ∀ (l : List α) (l' : List β) (i : ℕ) (p : α × β),
      (l.zip l')[i]? = some p ↔ l[i]? = some p.1 ∧ l'[i]? = some p.2 := by
  intro l
  induction l with
  | nil =>
    intro l' i p
    simp
  | cons a t ih =>
    intro l' i p
    cases l' with
    | nil => simp
    | cons b t' =>
      cases i with
      | zero =>
        simp only [List.zip_cons_cons, List.getElem?_cons_zero,
          Option.some.injEq]
        exact Prod.ext_iff
      | succ n =>
        simp only [List.zip_cons_cons, List.getElem?_cons_succ]
        exact ih t' n p

theorem ratedRows_eq_zip (ds : Dataset) (σ : Stat → ℚ) :
    ratedRows ds σ =
      (imputeRows ds.hasCol (filterRows ds.rows)).zip
        (minMaxRescale (scoresOf ds σ)) := rfl

/-- C1 as stated is false on the code: a run on `dsAllMissingVspm` produces
printed output in which no record's PlayerRating is a number in [0, 100] —
every rating is NaN (the silent NaN propagation of the all-missing `VSPM`
column). -/
theorem c1_counterexample :
    analyze dsAllMissingVspm sigma0 = .ok [(rowA6, none), (rowB6, none)] ∧
    ¬ ∀ p ∈ [(rowA6, (none : Option ℚ)), (rowB6, none)],
        ∃ x, p.2 = some x ∧ 0 ≤ x ∧ x ≤ 100 := by
  refine ⟨analyze_ds6_eval, ?_⟩
  intro h
  obtain ⟨x, hx, -, -⟩ := h (rowA6, none) (List.mem_cons_self _ _)
  simp at hx

/-- C1 amended: in every run that produces output, each printed record's
PlayerRating is NaN or lies in [0, 100]; and whenever the minimum and
maximum of the run's defined composite scores differ, the rated row whose
CompositeScore is the maximum receives PlayerRating exactly 100 and the
rated row whose CompositeScore is the minimum receives exactly 0 (row `i` of
`ratedRows` carries the score at position `i` of `scoresOf`). -/
theorem c1_amended_rating_bounds_and_extremes (ds : Dataset) (σ : Stat → ℚ)
    (out : List (Record × Option ℚ)) (h : analyze ds σ = .ok out) :
    (∀ p ∈ out, p.2 = none ∨ ∃ x, p.2 = some x ∧ 0 ≤ x ∧ x ≤ 100) ∧
    (listMin (someVals (scoresOf ds σ)) ≠ listMax (someVals (scoresOf ds σ)) →
      ∀ (i : ℕ) (p : Record × Option ℚ), (ratedRows ds σ)[i]? = some p →
        ((scoresOf ds σ)[i]? =
            some (some (listMax (someVals (scoresOf ds σ)))) →
          p.2 = some 100) ∧
        ((scoresOf ds σ)[i]? =
            some (some (listMin (someVals (scoresOf ds σ)))) →
          p.2 = some 0)) := by
  obtain ⟨hk, he, hout⟩ := analyze_ok_elim h
  constructor
  · intro p hp
    rw [hout] at hp
    have hp2 : p ∈ ratedRows ds σ :=
      mem_of_mem_sortDesc ((List.take_sublist 20 _).mem hp)
    rw [ratedRows_eq_zip] at hp2
    exact minMaxRescale_mem _ _ (List.of_mem_zip hp2).2
  · intro hne i p hip
    have hxs : someVals (scoresOf ds σ) ≠ [] := by
      intro h0
      rw [h0] at hne
      exact hne rfl
    rw [ratedRows_eq_zip] at hip
    have hrat := ((zip_getElem_iff _ _ i p).1 hip).2
    rw [minMaxRescale_of_ne _ hxs, List.getElem?_map] at hrat
    constructor
    · intro hsc
      rw [hsc] at hrat
      simp only [Option.map_some'] at hrat
      rw [(Option.some.inj hrat).symm, rescale_max_val hne]
    · intro hsc
      rw [hsc] at hrat
      simp only [Option.map_some'] at hrat
      rw [(Option.some.inj hrat).symm]
      simp

/-! ### Concrete run on `dsDistinct`: two distinct composite scores -/

theorem dsD_rows_eval : dsDistinct.rows = [rowC, rowD] := rfl

theorem dsD_hasCol_eval : dsDistinct.hasCol = fun _ => true := rfl

theorem filterRows_dsD : filterRows [rowC, rowD] = [rowC, rowD] := by
  norm_num [filterRows, rowC, rowD, minGames]

theorem fillCol_dsD (s : Stat) : fillCol s [rowC, rowD] = [rowC, rowD] := by
  cases s <;>
    norm_num [fillCol, colOf, colMean_cons_defined, Record.stat,
      Record.setStat, rowC, rowD]

theorem imputeRows_dsD :
    imputeRows (fun _ => true) [rowC, rowD] = [rowC, rowD] := by
  simp [imputeRows, keyStats, fillCol_dsD]

theorem compositeScore_dsD_C :
    compositeScore dsDistinct [rowC, rowD] sigmaD rowC = some (-(1 / 4)) := by
  norm_num [compositeScore, activeStats, keyStats, dsDistinct, sigmaD, zOf,
    colOf, someVals_cons_some, someVals_nil, popMean, popVar, scaleOf,
    statWeight, rowC, rowD, Record.stat, List.cons_ne_nil]

theorem compositeScore_dsD_D :
    compositeScore dsDistinct [rowC, rowD] sigmaD rowD = some (1 / 4) := by
  norm_num [compositeScore, activeStats, keyStats, dsDistinct, sigmaD, zOf,
    colOf, someVals_cons_some, someVals_nil, popMean, popVar, scaleOf,
    statWeight, rowC, rowD, Record.stat, List.cons_ne_nil]

theorem minMaxRescale_dsD :
    minMaxRescale [some (-(1 / 4) : ℚ), some (1 / 4)] = [some 0, some 100] := by
  norm_num [minMaxRescale, someVals_cons_some, someVals_nil, listMin, listMax,
    scaleOf]

theorem sortDesc_dsD :
    sortDesc [(rowC, some 0), (rowD, some 100)] =
      [(rowD, some 100), (rowC, some 0)] := by
  norm_num [sortDesc, sortAsc, insort, ratingLE]

theorem analyze_dsD :
    analyze dsDistinct sigmaD = .ok [(rowD, some 100), (rowC, some 0)] := by
  rw [analyze]
  simp only [dsD_rows_eval, dsD_hasCol_eval, filterRows_dsD, imputeRows_dsD,
    List.map_cons, List.map_nil, compositeScore_dsD_C, compositeScore_dsD_D,
    minMaxRescale_dsD, List.zip_cons_cons, List.zip_nil_right, sortDesc_dsD,
    keyStats, List.all_cons, List.all_nil, Bool.and_self, Bool.not_true,
    List.isEmpty_cons, Bool.false_eq_true, if_false, List.take_succ_cons,
    List.take_nil]

/-- Witness for the amended C1 at the concrete run on `dsDistinct`, whose two
composite scores -1/4 and 1/4 are distinct and whose printed ratings are 100
and 0. -/
theorem c1_witness :
    (∀ p ∈ [(rowD, some (100 : ℚ)), (rowC, some 0)],
        p.2 = none ∨ ∃ x, p.2 = some x ∧ 0 ≤ x ∧ x ≤ 100) ∧
    (listMin (someVals (scoresOf dsDistinct sigmaD)) ≠
        listMax (someVals (scoresOf dsDistinct sigmaD)) →
      ∀ (i : ℕ) (p : Record × Option ℚ),
        (ratedRows dsDistinct sigmaD)[i]? = some p →
        ((scoresOf dsDistinct sigmaD)[i]? =
            some (some (listMax (someVals (scoresOf dsDistinct sigmaD)))) →
          p.2 = some 100) ∧
        ((scoresOf dsDistinct sigmaD)[i]? =
            some (some (listMin (someVals (scoresOf dsDistinct sigmaD)))) →
          p.2 = some 0)) :=
  c1_amended_rating_bounds_and_extremes dsDistinct sigmaD
    [(rowD, some 100), (rowC, some 0)] analyze_dsD

end AnalyzePlayers
